import Mathlib

/-!
Verification of the file-share upload pipeline (src/src/main.go) against its
natural-language specification.  The Go source is shallowly embedded: pure
string manipulation is translated to Lean functions on `String` / `List Char`,
filesystem and network effects are abstracted as explicit environment records,
and the control flow of `main` (including Go's `defer` / `os.Exit` semantics)
is modelled as a function producing an explicit outcome record.
-/

namespace FileShare

/-! ## Models of the Go standard-library string helpers used by main.go -/

/-- Go `unicode.IsSpace` restricted to the ASCII whitespace characters
(sufficient for the inputs considered here). -/
def isSpaceGo (c : Char) : Bool :=
  c = ' ' || c = '\t' || c = '\n' || c = '\x0b' || c = '\x0c' || c = '\r'

/-- Remove trailing characters satisfying `p`. -/
def trimRightBy (p : Char → Bool) (l : List Char) : List Char :=
  (l.reverse.dropWhile p).reverse

/-- Remove leading and trailing characters satisfying `p`. -/
def goTrimBy (p : Char → Bool) (s : String) : String :=
  String.mk (trimRightBy p (s.toList.dropWhile p))

/-- Go `strings.TrimSpace` (ASCII fragment). -/
def goTrimSpace (s : String) : String := goTrimBy isSpaceGo s

/-- Go `strings.Trim(s, cutset)`: remove all leading and trailing characters
that occur in `cut`. -/
def goTrimCutset (cut : List Char) (s : String) : String :=
  goTrimBy (fun c => cut.contains c) s

/-- Go `strings.TrimRight(s, cutset)`. -/
def goTrimRightCutset (cut : List Char) (s : String) : String :=
  String.mk (trimRightBy (fun c => cut.contains c) s.toList)

/-- Go `strings.HasPrefix` (also the test done by `strings.TrimPrefix`),
computed on character lists so that concrete instances reduce. -/
def goHasPre (s pre : String) : Bool :=
  pre.toList.isPrefixOf s.toList

/-- Go `strings.TrimSuffix`. -/
def trimSuffixGo (s suf : String) : String :=
  if suf.toList.isSuffixOf s.toList then
    String.mk (s.toList.take (s.toList.length - suf.toList.length))
  else s

/-- The double-quote character (written via its code point to keep string
literals simple). -/
def dq : Char := Char.ofNat 34

/-- The single-quote character. -/
def sq : Char := Char.ofNat 39

/-- The cutset of Go's backquoted literal of a double quote followed by a
single quote, used at main.go:88 and main.go:533. -/
def quoteCut : List Char := [dq, sq]

/-- Split a character list at the first occurrence of `sep`
(Go `strings.SplitN(s, sep, 2)` when it finds a separator). -/
def splitAtFirst (sep : Char) : List Char → Option (List Char × List Char)
  | [] => none
  | c :: cs =>
    if c = sep then some ([], cs)
    else
      match splitAtFirst sep cs with
      | none => none
      | some (a, b) => some (c :: a, b)

/-- Go `filepath.Base` (unix rules): empty path gives ".", trailing slashes
are stripped, an all-slash path gives "/", otherwise the part after the last
slash. -/
def filepathBase (s : String) : String :=
  if s = "" then "."
  else
    let l := trimRightBy (fun c => c = '/') s.toList
    if l = [] then "/"
    else String.mk (l.reverse.takeWhile (fun c => c ≠ '/')).reverse

/-- Helper for `filepathExt`: scan the reversed character list, accumulating
until the first dot; stop empty at a path separator. -/
def extFromRev (acc : List Char) : List Char → List Char
  | [] => []
  | c :: cs =>
    if c = '/' then []
    else if c = '.' then '.' :: acc
    else extFromRev (c :: acc) cs

/-- Go `filepath.Ext`: the suffix starting at the final dot in the final
path element, empty if there is none. -/
def filepathExt (s : String) : String :=
  String.mk (extFromRev [] s.toList.reverse)

/-- Lookup in an association list where the last binding wins, mirroring
assignment into a Go map. -/
def lookupLast (m : List (String × String)) (k : String) : Option String :=
  match m.reverse.find? (fun p => p.1 == k) with
  | some p => some p.2
  | none => none

/-! ## Configuration (main.go:20-27, 111-138, 214-237) -/

/-- The `Config` struct of main.go:20-27.  `pfx` stands for the Go field
`Prefix`. -/
structure Config where
  accessKeyID : String
  accessKeySecret : String
  bucketName : String
  endpoint : String
  domain : String
  pfx : String
deriving DecidableEq, Repr

/-- An all-empty configuration, the value `&Config{}` of main.go:216. -/
def emptyConfig : Config := ⟨"", "", "", "", "", ""⟩

/-- `mergeConfig` of main.go:111-138.  `none` models a nil `*Config`;
each non-empty field of the high-priority fragment overrides the
low-priority one. -/
def mergeConfig : Option Config → Option Config → Option Config
  | none, high => high
  | some low, none => some low
  | some low, some high =>
    some
      { accessKeyID := if high.accessKeyID ≠ "" then high.accessKeyID else low.accessKeyID
        accessKeySecret := if high.accessKeySecret ≠ "" then high.accessKeySecret else low.accessKeySecret
        bucketName := if high.bucketName ≠ "" then high.bucketName else low.bucketName
        endpoint := if high.endpoint ≠ "" then high.endpoint else low.endpoint
        domain := if high.domain ≠ "" then high.domain else low.domain
        pfx := if high.pfx ≠ "" then high.pfx else low.pfx }

/-- Merging an ordered fragment list, lowest priority first, starting from a
nil config as `getConfig` does (main.go:174, 184-212). -/
def mergeAll (fs : List (Option Config)) : Option Config :=
  fs.foldl mergeConfig none

/-- Reading a field of a possibly-nil config; a nil config has every field
empty. -/
def optStr (f : Config → String) : Option Config → String
  | none => ""
  | some c => f c

/-- `if config == nil { config = &Config{} }` of main.go:215-217. -/
def orEmptyConfig : Option Config → Config
  | none => emptyConfig
  | some c => c

/-- The missing-field list built by the four sequential checks of
main.go:219-231, in that fixed order. -/
def missingConfig (c : Config) : List String :=
  (if c.accessKeyID = "" then ["access_key_id"] else []) ++
  (if c.accessKeySecret = "" then ["access_key_secret"] else []) ++
  (if c.bucketName = "" then ["bucket_name"] else []) ++
  (if c.endpoint = "" then ["endpoint"] else [])

/-- The required-field validation of main.go:233-237. -/
def validateConfig (c : Config) : Except String Config :=
  let missing := missingConfig c
  if missing.length > 0 then
    Except.error ("missing config: " ++ String.intercalate ", " missing)
  else Except.ok c

/-- The value of the highest-priority (latest) fragment whose field value is
non-empty, or the empty string when no fragment sets the field.  This is the
claim-side description of the merge result. -/
def highestNonEmpty (l : List String) : String :=
  ((l.reverse.find? (fun v => v != "")).getD "")

/-- Claim-side description of the missing-field report: the names, in the
fixed required order, of exactly those required fields that are empty. -/
def specMissing (c : Config) : List String :=
  ([("access_key_id", c.accessKeyID), ("access_key_secret", c.accessKeySecret),
    ("bucket_name", c.bucketName), ("endpoint", c.endpoint)].filter
      (fun p => p.2 == "")).map Prod.fst

/-! ## Env-file parsing (main.go:67-93) -/

/-- The skip condition of main.go:79: blank lines and comment lines. -/
def skipLine (l : String) : Bool := l = "" || goHasPre l "#"

/-- The per-scan-line body of `loadEnvFile` (main.go:76-91), applied to the
file's lines in order; the resulting pairs are the successive insertions into
the `env` map. -/
def parseEnvFile : List String → List (String × String)
  | [] => []
  | line :: rest =>
    let l := goTrimSpace line
    if skipLine l then parseEnvFile rest
    else
      match splitAtFirst '=' l.toList with
      | none => parseEnvFile rest
      | some (k, v) =>
        (goTrimSpace (String.mk k),
          goTrimCutset quoteCut (goTrimSpace (String.mk v))) :: parseEnvFile rest

/-- The per-line rule as amended from claim C4: trim the whole line; skip
blank lines, comment lines and lines without an equals sign; split at the
first equals sign; trim whitespace around key and value; then strip all
(not just one layer of) leading and trailing quote characters, matched or
not, from the value. -/
def specEnvLine (line : String) : Option (String × String) :=
  let l := goTrimSpace line
  if skipLine l then none
  else
    match splitAtFirst '=' l.toList with
    | none => none
    | some (k, v) =>
      some (goTrimSpace (String.mk k),
        goTrimCutset quoteCut (goTrimSpace (String.mk v)))

/-- The quote rule exactly as claim C4 states it: a value wrapped in one pair
of matching quote characters loses only that pair; anything else is kept. -/
def stripOneMatchingLayer (s : String) : String :=
  match s.toList with
  | [] => s
  | c :: rest =>
    if (c = dq || c = sq) && rest ≠ [] && rest.getLast? = some c then
      String.mk rest.dropLast
    else s

/-! ## Key generation and URLs (main.go:309-351) -/

/-- `generateOSSKey` of main.go:309-326, with the wall clock made explicit:
`t` is the formatted value of `time.Now().Format("20060102_150405")`, only
read in the timestamped branch.  `ossPfx` is the Go parameter `prefix`. -/
def generateOSSKey (filename ossPfx : String) (noTimestamp : Bool) (t : String) : String :=
  let base := filepathBase filename
  let key :=
    if noTimestamp then base
    else trimSuffixGo base (filepathExt base) ++ "_" ++ t ++ filepathExt base
  if ossPfx ≠ "" then goTrimCutset ['/'] ossPfx ++ "/" ++ key else key

/-- Claim-side helper: join a path prefix to a key with a single slash after
trimming all leading and trailing slashes from the prefix; an empty prefix is
not joined. -/
def joinPfx (p key : String) : String :=
  if p = "" then key else goTrimCutset ['/'] p ++ "/" ++ key

/-- Claim-side helper: splice a timestamp between the name stem and its
extension. -/
def spliceTimestamp (base t : String) : String :=
  trimSuffixGo base (filepathExt base) ++ "_" ++ t ++ filepathExt base

/-- `getFileURL` of main.go:328-351. -/
def getFileURL (config : Config) (ossKey : String) : String :=
  if config.domain ≠ "" then
    let domain := goTrimRightCutset ['/'] config.domain
    let domain :=
      if !(goHasPre domain "http://") && !(goHasPre domain "https://") then
        "https://" ++ domain
      else domain
    domain ++ "/" ++ ossKey
  else
    let endpoint := config.endpoint
    let p :=
      if goHasPre endpoint "http://" then ("http", String.mk (endpoint.toList.drop 7))
      else if goHasPre endpoint "https://" then ("https", String.mk (endpoint.toList.drop 8))
      else ("https", endpoint)
    p.1 ++ "://" ++ config.bucketName ++ "." ++ p.2 ++ "/" ++ ossKey

/-! ## URL classification and download (main.go:489-556) -/

/-- `isURL` of main.go:489-491. -/
def isURL (s : String) : Bool :=
  goHasPre s "http://" || goHasPre s "https://"

/-- Drop query text: `filename[:idx]` at the first question mark, the whole
string when there is none (main.go:505-507). -/
def stripAfterQM (s : String) : String :=
  String.mk (s.toList.takeWhile (fun c => c ≠ '?'))

/-- `getFilenameFromURL` of main.go:494-512.  `parsed` is the outcome of
`url.Parse`: `none` for a parse error, otherwise the parsed path `u.Path`. -/
def getFilenameFromURL (parsed : Option String) : String :=
  match parsed with
  | none => "downloaded_file"
  | some path =>
    if path = "" || path = "/" then "downloaded_file"
    else
      let filename := stripAfterQM (filepathBase path)
      if filename = "" || filename = "." then "downloaded_file" else filename

/-- Return the remainder of `l` after the first occurrence of `needle`,
`none` when `needle` does not occur (Go `strings.Index` plus slicing). -/
def dropAfterFirst (needle : List Char) : List Char → Option (List Char)
  | [] => if needle.isEmpty then some [] else none
  | c :: cs =>
    if needle.isPrefixOf (c :: cs) then some ((c :: cs).drop needle.length)
    else dropAfterFirst needle cs

/-- The display-name computation of `downloadURL` (main.go:526-538): the
URL-derived name, overridden by a non-empty quote-trimmed
`Content-Disposition` filename hint.  `cd` is the header value, empty when
the header is absent. -/
def downloadDisplayName (parsed : Option String) (cd : String) : String :=
  let filename := getFilenameFromURL parsed
  if cd = "" then filename
  else
    match dropAfterFirst "filename=".toList cd.toList with
    | none => filename
    | some rest =>
      let fn := goTrimCutset quoteCut (String.mk rest)
      if fn = "" then filename else fn

/-- Claim-side description of the display name (claim C6): the (non-empty,
quote-trimmed) Content-Disposition filename hint when the response carries
one; otherwise the last path segment of the URL; and the fixed fallback name
when the URL fails to parse, its path is empty or a bare slash, or the last
segment is empty or the dot placeholder. -/
def specDisplayName (parsed : Option String) (cd : String) : String :=
  let hint :=
    if cd = "" then none
    else
      match dropAfterFirst "filename=".toList cd.toList with
      | none => none
      | some rest =>
        let fn := goTrimCutset quoteCut (String.mk rest)
        if fn = "" then none else some fn
  match hint with
  | some fn => fn
  | none =>
    match parsed with
    | none => "downloaded_file"
    | some path =>
      let seg := stripAfterQM (filepathBase path)
      if path = "" || path = "/" || seg = "" || seg = "." then "downloaded_file"
      else seg

/-- The transport outcome of `http.Get`: either a transport error with its
message, or a response carrying a status code and the value of the
`Content-Disposition` header (empty when absent). -/
inductive HttpOutcome where
  | transportError (msg : String)
  | response (status : Nat) (cd : String)
deriving DecidableEq

/-- `downloadURL` of main.go:515-556 over an abstract transport outcome.
`parsed` models `url.Parse` on the same URL, `tmpPath` the name chosen by
`os.CreateTemp`, `createOk` / `copyOk` the success of temp-file creation and
of copying the body (their Go error texts carry an `%v` detail that is
abstracted away here). -/
def downloadURL (url : String) (r : HttpOutcome) (parsed : Option String)
    (tmpPath : String) (createOk copyOk : Bool) : Except String (String × String) :=
  match r with
  | .transportError msg =>
    Except.error ("failed to download " ++ url ++ ": " ++ msg)
  | .response status cd =>
    if status ≠ 200 then
      Except.error ("failed to download " ++ url ++ ": HTTP " ++ toString status)
    else
      let filename := downloadDisplayName parsed cd
      if !createOk then Except.error "failed to create temp file"
      else if !copyOk then Except.error "failed to save downloaded file"
      else Except.ok (tmpPath, filename)

/-! ## Archive builder (main.go:353-431) -/

/-- The in-archive name chosen by `addFileToZip` (main.go:407-421):
a rename-map entry for the path wins; else the path relative to `baseDir`
when `preservePath` is set and `baseDir` is non-empty (falling back to the
basename when `filepath.Rel` errors); else the plain basename.  `rel`
abstracts `filepath.Rel`, returning `none` on error. -/
def resolveZipName (filenameMap : List (String × String)) (preservePath : Bool)
    (baseDir : String) (rel : String → String → Option String)
    (filePath : String) : String :=
  match lookupLast filenameMap filePath with
  | some customName => customName
  | none =>
    if preservePath && baseDir ≠ "" then
      match rel baseDir filePath with
      | some relPath => relPath
      | none => filepathBase filePath
    else filepathBase filePath

/-- The entry names written by the `createZip` loop (main.go:370-376), in
manifest order; `readOk` abstracts the per-entry open/stat/copy of
`addFileToZip`, whose failure aborts the whole build (`none`).  No
deduplication of names is performed anywhere in the loop. -/
def createZipEntries (filenameMap : List (String × String)) (preservePath : Bool)
    (baseDir : String) (rel : String → String → Option String)
    (readOk : String → Bool) : List String → Option (List String)
  | [] => some []
  | f :: fsr =>
    if readOk f then
      match createZipEntries filenameMap preservePath baseDir rel readOk fsr with
      | some names => some (resolveZipName filenameMap preservePath baseDir rel f :: names)
      | none => none
    else none

/-! ## Resource collector (main.go:433-491, 654-703) -/

/-- Abstract filesystem for `expandFiles`: `statOk` is the success of
`os.Stat` (failure is read as not-exists), `isDir` the directory test of a
stat-able path, `walk` the non-directory descendants of a directory in walk
order (or a walk error), `glob` the matches of a pattern (or a bad-pattern
error). -/
structure FS where
  statOk : String → Bool
  isDir : String → Bool
  walk : String → Except String (List String)
  glob : String → Except String (List String)

/-- Go `strings.ContainsAny(pattern, "*?")`. -/
def containsGlobMeta (s : String) : Bool :=
  s.toList.any (fun c => c = '*' || c = '?')

/-- The pattern loop of `expandFiles` (main.go:435-480). -/
def expandLoop (fsys : FS) (recursive : Bool) : List String → Except String (List String)
  | [] => Except.ok []
  | p :: ps =>
    if fsys.statOk p && fsys.isDir p then
      if recursive then
        match fsys.walk p with
        | Except.error e => Except.error ("failed to walk directory " ++ p ++ ": " ++ e)
        | Except.ok ds =>
          match expandLoop fsys recursive ps with
          | Except.error e => Except.error e
          | Except.ok rest => Except.ok (ds ++ rest)
      else Except.error (p ++ " is a directory, use --recursive to upload recursively")
    else if containsGlobMeta p then
      match fsys.glob p with
      | Except.error e => Except.error e
      | Except.ok [] => Except.error ("no files matched: " ++ p)
      | Except.ok ms =>
        let ms := ms.filter (fun m => fsys.statOk m && !fsys.isDir m)
        match expandLoop fsys recursive ps with
        | Except.error e => Except.error e
        | Except.ok rest => Except.ok (ms ++ rest)
    else if !fsys.statOk p then Except.error ("file not found: " ++ p)
    else
      match expandLoop fsys recursive ps with
      | Except.error e => Except.error e
      | Except.ok rest => Except.ok (p :: rest)

/-- `expandFiles` of main.go:433-486: the loop above followed by the final
emptiness check. -/
def expandFiles (fsys : FS) (recursive : Bool) (patterns : List String) :
    Except String (List String) :=
  match expandLoop fsys recursive patterns with
  | Except.error e => Except.error e
  | Except.ok [] => Except.error "no files to upload"
  | Except.ok fl => Except.ok fl

/-- `DownloadedFile` of main.go:559-563. -/
structure DownloadedFile where
  tmpPath : String
  filename : String
  origURL : String
deriving DecidableEq, Repr

/-- The argument-classification loop of main.go:658-675 in the case where
every download succeeds: `dl` maps a URL to its temp path and display name.
URL arguments are appended to the download list, others to the local list,
each in argument order. -/
def partitionLoop (dl : String → String × String) : List String → List String × List DownloadedFile
  | [] => ([], [])
  | a :: rest =>
    let p := partitionLoop dl rest
    if isURL a then (p.1, ⟨(dl a).1, (dl a).2, a⟩ :: p.2)
    else (a :: p.1, p.2)

/-- The manifest assembly of main.go:684-703: expand the local arguments
(only when there are any), then append the downloaded temp paths, then fail
when the result is empty. -/
def mainFiles (fsys : FS) (recursive : Bool) (dl : String → String × String)
    (args : List String) : Except String (List String) :=
  let p := partitionLoop dl args
  match (if p.1 = [] then Except.ok [] else expandFiles fsys recursive p.1) with
  | Except.error e => Except.error e
  | Except.ok fl =>
    let files := fl ++ p.2.map (·.tmpPath)
    if files = [] then Except.error "no files to upload" else Except.ok files

/-! ## Separate-mode upload loop (main.go:808-831) -/

/-- `UploadResult` of main.go:32-35. -/
structure UploadResult where
  file : String
  url : String
deriving DecidableEq, Repr

/-- The record produced for one uploaded manifest entry (main.go:812-830). -/
def sepRecord (tmap : List (String × String)) (cfg : Config) (ossPfx : String)
    (nt : Bool) (t : String) (f : String) : UploadResult :=
  let displayName := match lookupLast tmap f with | some n => n | none => filepathBase f
  let keyName := match lookupLast tmap f with | some n => n | none => f
  { file := displayName, url := getFileURL cfg (generateOSSKey keyName ossPfx nt t) }

/-- The storage key used for one manifest entry in separate mode. -/
def sepKey (tmap : List (String × String)) (ossPfx : String) (nt : Bool)
    (t : String) (f : String) : String :=
  generateOSSKey (match lookupLast tmap f with | some n => n | none => f) ossPfx nt t

/-- The separate-mode upload loop of main.go:810-831: files are uploaded in
manifest order, the first failure aborts, and the result records accumulate
in the same order.  The first component is the list of files for which an
upload `PutObjectFromFile` call was actually issued, in order. -/
def uploadLoop (tmap : List (String × String)) (cfg : Config) (ossPfx : String)
    (nt : Bool) (t : String) (up : String → String → Bool) :
    List String → List String × Except String (List UploadResult)
  | [] => ([], Except.ok [])
  | f :: fsr =>
    if up (sepKey tmap ossPfx nt t f) f then
      match uploadLoop tmap cfg ossPfx nt t up fsr with
      | (tr, Except.ok rs) => (f :: tr, Except.ok (sepRecord tmap cfg ossPfx nt t f :: rs))
      | (tr, Except.error e) => (f :: tr, Except.error e)
    else
      ([f], Except.error ("failed to upload " ++
        (match lookupLast tmap f with | some n => n | none => filepathBase f)))

/-! ## Zip-mode key (main.go:761-777) -/

/-- The zip-mode name and key computation of main.go:763-777: an empty
`--zip-name` is replaced by an auto-generated timestamped name, and the key
generator is then called with the suppress-timestamp argument
`noTimestamp || autoGenerated`. -/
def zipUploadKey (zipName : String) (nt : Bool) (ossPfx t : String) : String :=
  let autoGenerated := zipName = ""
  let name := if autoGenerated then "archive_" ++ t ++ ".zip" else zipName
  generateOSSKey name ossPfx (nt || autoGenerated) t

/-! ## Whole-pipeline temp-file lifecycle (main.go:601-839)

Go semantics that the model must capture: a function's `defer`red calls run
when the function returns normally; `os.Exit` terminates the process
immediately WITHOUT running deferred calls.  `outputError` (main.go:584-596)
ends in `os.Exit(1)`, and the dry-run branch (main.go:723) ends in
`os.Exit(0)`, so none of the exits taken through them run the deferred
temp-file removals of main.go:678-682 and main.go:774.  Only the success
path returns from `main` normally. -/

/-- The abstract effects of one pipeline run: download outcomes per URL,
local-argument expansion, configuration resolution, client/bucket creation,
the temp path `os.CreateTemp` hands to `createZip`, per-entry read success
inside `createZip`, and per-object upload success. -/
structure PipeEnv where
  dl : String → Option (String × String)
  expand : List String → Except String (List String)
  config : Except String Config
  clientOk : Bool
  bucketOk : Bool
  zipTemp : String
  readOk : String → Bool
  upload : String → String → Bool

/-- The command-line flags relevant to the pipeline body. -/
structure PipeFlags where
  zipMode : Bool
  zipName : String
  noTimestamp : Bool
  recursive : Bool
  preservePath : Bool
  pfxFlag : String
  dryRun : Bool
deriving Repr

/-- What a run observably does to temporary files: the exit code, whether the
process left through `os.Exit` (skipping deferred cleanup), the temp files
created (in creation order) and the temp files removed (in removal order). -/
structure PipeOutcome where
  exitCode : Nat
  viaExit : Bool
  created : List String
  removed : List String
deriving DecidableEq, Repr

/-- An exit through `outputError` / `os.Exit(1)`: deferred removals do not
run; only removals already performed (`rem`) have happened. -/
def exitErr (created rem : List String) : PipeOutcome :=
  { exitCode := 1, viaExit := true, created := created, removed := rem }

/-- The separate-mode upload loop as far as temp files are concerned
(main.go:810-838): the first failed upload exits through `outputError`, a
completed loop falls through to the end of `main`, whose normal return runs
the deferred removal of the downloaded temp files (main.go:678-682). -/
def sepTempLoop (env : PipeEnv) (ossPfx : String) (nt : Bool) (t : String)
    (tmap : List (String × String)) (created : List String)
    (dfs : List DownloadedFile) : List String → PipeOutcome
  | [] =>
    { exitCode := 0, viaExit := false, created := created,
      removed := dfs.map (·.tmpPath) }
  | f :: fsr =>
    if env.upload (sepKey tmap ossPfx nt t f) f then
      sepTempLoop env ossPfx nt t tmap created dfs fsr
    else exitErr created []

/-- main.go:684-838 — everything after the argument-classification loop.
The deferred cleanup of the downloaded temp files is registered at this
point (main.go:678); it runs only on the normal-return paths below. -/
def afterCollect (env : PipeEnv) (flags : PipeFlags) (t : String)
    (locals : List String) (dfs : List DownloadedFile)
    (created : List String) : PipeOutcome :=
  match (if locals = [] then Except.ok [] else env.expand locals) with
  | Except.error _ => exitErr created []
  | Except.ok fl =>
    let files := fl ++ dfs.map (·.tmpPath)
    if files = [] then exitErr created []
    else if flags.dryRun then
      { exitCode := 0, viaExit := true, created := created, removed := [] }
    else
      match env.config with
      | Except.error _ => exitErr created []
      | Except.ok cfg =>
        if !env.clientOk then exitErr created []
        else if !env.bucketOk then exitErr created []
        else
          let ossPfx := if flags.pfxFlag ≠ "" then flags.pfxFlag else cfg.pfx
          let tmap := dfs.map (fun d => (d.tmpPath, d.filename))
          if flags.zipMode then
            let created2 := created ++ [env.zipTemp]
            if files.all env.readOk then
              if env.upload (zipUploadKey flags.zipName flags.noTimestamp ossPfx t)
                  env.zipTemp then
                { exitCode := 0, viaExit := false, created := created2,
                  removed := env.zipTemp :: dfs.map (·.tmpPath) }
              else exitErr created2 []
            else exitErr created2 [env.zipTemp]
          else
            sepTempLoop env ossPfx flags.noTimestamp t tmap created dfs files

/-- The argument loop of main.go:658-675, threading the temp files created
so far; a failed download exits through `outputError` before the cleanup
defer of main.go:678 is even registered. -/
def runArgs (env : PipeEnv) (flags : PipeFlags) (t : String) :
    List String → List String → List DownloadedFile → List String → PipeOutcome
  | [], locals, dfs, created => afterCollect env flags t locals dfs created
  | a :: rest, locals, dfs, created =>
    if isURL a then
      match env.dl a with
      | none => exitErr created []
      | some (tmp, fn) =>
        runArgs env flags t rest locals (dfs ++ [⟨tmp, fn, a⟩]) (created ++ [tmp])
    else runArgs env flags t rest (locals ++ [a]) dfs created

/-- The pipeline body of `main` (main.go:654-839), starting at the argument
loop with empty accumulators. -/
def runMain (env : PipeEnv) (flags : PipeFlags) (t : String)
    (args : List String) : PipeOutcome :=
  runArgs env flags t args [] [] []

/-! ## Concrete environments used by the pipeline theorems -/

/-- A run environment in which the single URL downloads successfully to a
temp file and every later operation succeeds. -/
def envC1 : PipeEnv :=
  { dl := fun u => if u = "https://h/a.png" then some ("/tmp/oss-download-1.png", "a.png") else none
    expand := fun _ => Except.ok []
    config := Except.ok ⟨"id", "secret", "bucket", "oss.example.com", "", ""⟩
    clientOk := true, bucketOk := true
    zipTemp := "/tmp/oss-upload-1.zip"
    readOk := fun _ => true
    upload := fun _ _ => true }

/-- Flags for a dry-run invocation with a single URL argument. -/
def flagsC1dry : PipeFlags :=
  { zipMode := false, zipName := "", noTimestamp := false, recursive := false
    preservePath := false, pfxFlag := "", dryRun := true }

/-- The same invocation without dry-run (a real separate-mode upload). -/
def flagsC1sep : PipeFlags :=
  { zipMode := false, zipName := "", noTimestamp := false, recursive := false
    preservePath := false, pfxFlag := "", dryRun := false }

/-! ## Claims -/

/-- C1: the claim says every temporary file the pipeline creates is removed
exactly once on every exit path, including the dry-run exit.  The code
violates this: cleanup of downloaded temp files is a deferred call
(main.go:678-682), but the dry-run path leaves through `os.Exit(0)`
(main.go:723) and every error path leaves through `outputError`'s
`os.Exit(1)` (main.go:595), and `os.Exit` does not run deferred calls — so
the temp file of a successfully downloaded URL is created and never removed
on those paths, contradicting the code's own comment "Clean up downloaded
files on exit".  This theorem evaluates the pipeline model at the failing
input: the dry-run invocation of a single URL creates the temp file and
removes nothing, while the very same invocation without dry-run removes it
exactly once on its normal return. -/
theorem temp_cleanup_skipped_on_exit :
    (runMain envC1 flagsC1dry "TS" ["https://h/a.png"]).created =
      ["/tmp/oss-download-1.png"] ∧
    (runMain envC1 flagsC1dry "TS" ["https://h/a.png"]).removed = [] ∧
    (runMain envC1 flagsC1dry "TS" ["https://h/a.png"]).exitCode = 0 ∧
    (runMain envC1 flagsC1sep "TS" ["https://h/a.png"]).created =
      ["/tmp/oss-download-1.png"] ∧
    (runMain envC1 flagsC1sep "TS" ["https://h/a.png"]).removed =
      ["/tmp/oss-download-1.png"] :=
  ⟨rfl, rfl, rfl, rfl, rfl⟩

/-- C2 (counterexample): the claim asserts the in-archive names are pairwise
distinct for every manifest, but `addFileToZip` performs no deduplication:
two local files `a/x.txt` and `b/x.txt` (no rename map, no path
preservation) both resolve to the in-archive name `x.txt`, and the build
succeeds with that duplicate pair. -/
theorem zip_names_duplicate_cex :
    createZipEntries [] false "" (fun _ _ => none) (fun _ => true)
      ["a/x.txt", "b/x.txt"] = some ["x.txt", "x.txt"] ∧
    ¬ (["x.txt", "x.txt"] : List String).Nodup :=
  ⟨rfl, by decide⟩

/-- C2 (amended): when every entry is readable, the produced archive has
exactly one entry per manifest entry, in manifest order, whose name is
resolved by the precedence rename-map / relative-to-baseDir (under
`preservePath`) / basename; no deduplication is performed, so the names are
pairwise distinct exactly when those resolved names are pairwise distinct. -/
theorem zip_names_follow_precedence (filenameMap : List (String × String))
    (preservePath : Bool) (baseDir : String)
    (rel : String → String → Option String) (readOk : String → Bool)
    (files : List String) (h : ∀ f ∈ files, readOk f = true) :
    createZipEntries filenameMap preservePath baseDir rel readOk files =
      some (files.map (resolveZipName filenameMap preservePath baseDir rel)) := by
  induction files with
  | nil => rfl
  | cons f fsr ih =>
    have hf : readOk f = true := h f (by simp)
    have hrest : ∀ g ∈ fsr, readOk g = true := fun g hg => h g (by simp [hg])
    simp [createZipEntries, hf, ih hrest]

/-- Witness for `zip_names_follow_precedence` at a concrete readable
manifest whose resolved names are distinct. -/
theorem zip_names_follow_precedence_witness :
    createZipEntries [("/tmp/d1", "img.png")] false "" (fun _ _ => none)
      (fun _ => true) ["a/x.txt", "/tmp/d1"] = some ["x.txt", "img.png"] := by
  have h := zip_names_follow_precedence [("/tmp/d1", "img.png")] false ""
    (fun _ _ => none) (fun _ => true) ["a/x.txt", "/tmp/d1"]
    (fun f _ => rfl)
  exact h

/-- C5 (counterexample): the claim says every 2xx response is accepted, but
`downloadURL` tests `resp.StatusCode != http.StatusOK`, i.e. accepts only
exactly 200: the 2xx status 206 is rejected with a terminal error. -/
theorem download_rejects_2xx_cex :
    downloadURL "http://h/x.png" (HttpOutcome.response 206 "") (some "/x.png")
      "/tmp/t" true true =
      Except.error "failed to download http://h/x.png: HTTP 206" ∧
    200 ≤ 206 ∧ 206 < 300 :=
  ⟨rfl, by decide, by decide⟩

/-- C5 (amended): with temp-file creation and body copy succeeding,
retrieval fails exactly when the transport fails or the status is not
exactly 200 (http.StatusOK) — not "not 2xx" — and in both failure cases the
error names the URL; every status-200 response is accepted and saved. -/
theorem download_status_boundary (url msg : String) (st : Nat) (cd : String)
    (parsed : Option String) (tmp : String) :
    downloadURL url (HttpOutcome.transportError msg) parsed tmp true true =
      Except.error ("failed to download " ++ url ++ ": " ++ msg) ∧
    (st ≠ 200 → downloadURL url (HttpOutcome.response st cd) parsed tmp true true =
      Except.error ("failed to download " ++ url ++ ": HTTP " ++ toString st)) ∧
    downloadURL url (HttpOutcome.response 200 cd) parsed tmp true true =
      Except.ok (tmp, downloadDisplayName parsed cd) := by
  refine ⟨rfl, fun h => ?_, rfl⟩
  simp [downloadURL, h]

/-- Witness for `download_status_boundary` at a concrete 404 failure. -/
theorem download_status_boundary_witness :
    downloadURL "http://h/a.png" (HttpOutcome.response 404 "") (some "/a.png")
      "/tmp/t" true true =
      Except.error "failed to download http://h/a.png: HTTP 404" :=
  (download_status_boundary "http://h/a.png" "m" 404 "" (some "/a.png")
    "/tmp/t").2.1 (by decide)

/-- C7: with the timestamp suppressed, key generation ignores the clock
entirely — two calls at different instants agree — and the key is the
basename of the display name, joined (when the prefix is non-empty) to the
prefix with all leading and trailing slashes trimmed by a single slash. -/
theorem osskey_no_timestamp_idempotent (name ossPfx t₁ t₂ : String) :
    generateOSSKey name ossPfx true t₁ = generateOSSKey name ossPfx true t₂ ∧
    generateOSSKey name ossPfx true t₁ = joinPfx ossPfx (filepathBase name) := by
  by_cases hp : ossPfx = "" <;> simp [generateOSSKey, joinPfx, hp]

/-- C9: the archive's storage key is generated from the archive's output
filename; an auto-generated name (empty `--zip-name`) is never timestamped
again regardless of the suppress flag, while a user-supplied name is
timestamped exactly when the suppress flag is off. -/
theorem zip_key_timestamp_rule (zipName : String) (nt : Bool) (ossPfx t : String) :
    zipUploadKey zipName nt ossPfx t =
      if zipName = "" then joinPfx ossPfx (filepathBase ("archive_" ++ t ++ ".zip"))
      else if nt then joinPfx ossPfx (filepathBase zipName)
      else joinPfx ossPfx (spliceTimestamp (filepathBase zipName) t) := by
  cases nt <;> by_cases hz : zipName = "" <;> by_cases hp : ossPfx = "" <;>
    simp [zipUploadKey, generateOSSKey, joinPfx, spliceTimestamp, hz, hp]

/-- C4 (counterexample): the claim says a value loses exactly one layer of
matching quotes and keeps nested quotes beyond one layer, but the code uses
`strings.Trim(value, cutset)`, which strips ALL leading and trailing quote
characters: on the line `K=""v""` the code yields the value `v`, while the
claim's one-layer rule yields `"v"`. -/
theorem env_value_quote_trim_cex :
    parseEnvFile [String.mk ['K', '=', dq, dq, 'v', dq, dq]] = [("K", "v")] ∧
    stripOneMatchingLayer (String.mk [dq, dq, 'v', dq, dq]) =
      String.mk [dq, 'v', dq] ∧
    ("v" : String) ≠ String.mk [dq, 'v', dq] :=
  ⟨rfl, rfl, by decide⟩

/-- C4 (amended): each line of a fragment file is handled independently and
in order by the rule: trim surrounding whitespace; skip blank lines, lines
starting with a hash, and lines without an equals sign; otherwise split at
the first equals sign, trim whitespace around key and value, and strip ALL
leading and trailing quote characters (double or single, matched or not)
from the value. -/
theorem env_file_line_rule (lines : List String) :
    parseEnvFile lines = lines.filterMap specEnvLine := by
  induction lines with
  | nil => rfl
  | cons line rest ih =>
    rw [List.filterMap_cons]
    show parseEnvFile (line :: rest) = _
    by_cases h1 : skipLine (goTrimSpace line) = true
    · have hs : specEnvLine line = none := by simp [specEnvLine, h1]
      have hp : parseEnvFile (line :: rest) = parseEnvFile rest := by
        simp [parseEnvFile, h1]
      rw [hs, hp, ih]
    · rcases hsp : splitAtFirst '=' (goTrimSpace line).data with _ | ⟨k, v⟩
      · have hs : specEnvLine line = none := by
          simp [specEnvLine, String.toList, h1, hsp]
        have hp : parseEnvFile (line :: rest) = parseEnvFile rest := by
          simp [parseEnvFile, String.toList, h1, hsp]
        rw [hs, hp, ih]
      · have hs : specEnvLine line =
            some (goTrimSpace (String.mk k),
              goTrimCutset quoteCut (goTrimSpace (String.mk v))) := by
          simp [specEnvLine, String.toList, h1, hsp]
        have hp : parseEnvFile (line :: rest) =
            (goTrimSpace (String.mk k),
              goTrimCutset quoteCut (goTrimSpace (String.mk v))) ::
              parseEnvFile rest := by
          simp [parseEnvFile, String.toList, h1, hsp]
        rw [hs, hp, ih]

/-! ## Merge lemmas for C3 -/

/-- Per-field behaviour of a single merge step on the access-key-id field:
the high fragment's value wins unless empty; a nil fragment reads as
all-empty. -/
theorem merge_step_aki (a b : Option Config) :
    optStr Config.accessKeyID (mergeConfig a b) =
      if optStr Config.accessKeyID b = "" then optStr Config.accessKeyID a
      else optStr Config.accessKeyID b := by
  cases a with
  | none =>
    cases b with
    | none => rfl
    | some hb => by_cases h : hb.accessKeyID = "" <;> simp [mergeConfig, optStr, h]
  | some la =>
    cases b with
    | none => simp [mergeConfig, optStr]
    | some hb => by_cases h : hb.accessKeyID = "" <;> simp [mergeConfig, optStr, h]

/-- Merge-step behaviour of the access-key-secret field. -/
theorem merge_step_aks (a b : Option Config) :
    optStr Config.accessKeySecret (mergeConfig a b) =
      if optStr Config.accessKeySecret b = "" then optStr Config.accessKeySecret a
      else optStr Config.accessKeySecret b := by
  cases a with
  | none =>
    cases b with
    | none => rfl
    | some hb => by_cases h : hb.accessKeySecret = "" <;> simp [mergeConfig, optStr, h]
  | some la =>
    cases b with
    | none => simp [mergeConfig, optStr]
    | some hb => by_cases h : hb.accessKeySecret = "" <;> simp [mergeConfig, optStr, h]

/-- Merge-step behaviour of the bucket-name field. -/
theorem merge_step_bucket (a b : Option Config) :
    optStr Config.bucketName (mergeConfig a b) =
      if optStr Config.bucketName b = "" then optStr Config.bucketName a
      else optStr Config.bucketName b := by
  cases a with
  | none =>
    cases b with
    | none => rfl
    | some hb => by_cases h : hb.bucketName = "" <;> simp [mergeConfig, optStr, h]
  | some la =>
    cases b with
    | none => simp [mergeConfig, optStr]
    | some hb => by_cases h : hb.bucketName = "" <;> simp [mergeConfig, optStr, h]

/-- Merge-step behaviour of the endpoint field. -/
theorem merge_step_endpoint (a b : Option Config) :
    optStr Config.endpoint (mergeConfig a b) =
      if optStr Config.endpoint b = "" then optStr Config.endpoint a
      else optStr Config.endpoint b := by
  cases a with
  | none =>
    cases b with
    | none => rfl
    | some hb => by_cases h : hb.endpoint = "" <;> simp [mergeConfig, optStr, h]
  | some la =>
    cases b with
    | none => simp [mergeConfig, optStr]
    | some hb => by_cases h : hb.endpoint = "" <;> simp [mergeConfig, optStr, h]

/-- Merge-step behaviour of the domain field. -/
theorem merge_step_domain (a b : Option Config) :
    optStr Config.domain (mergeConfig a b) =
      if optStr Config.domain b = "" then optStr Config.domain a
      else optStr Config.domain b := by
  cases a with
  | none =>
    cases b with
    | none => rfl
    | some hb => by_cases h : hb.domain = "" <;> simp [mergeConfig, optStr, h]
  | some la =>
    cases b with
    | none => simp [mergeConfig, optStr]
    | some hb => by_cases h : hb.domain = "" <;> simp [mergeConfig, optStr, h]

/-- Merge-step behaviour of the path-prefix field. -/
theorem merge_step_pfx (a b : Option Config) :
    optStr Config.pfx (mergeConfig a b) =
      if optStr Config.pfx b = "" then optStr Config.pfx a
      else optStr Config.pfx b := by
  cases a with
  | none =>
    cases b with
    | none => rfl
    | some hb => by_cases h : hb.pfx = "" <;> simp [mergeConfig, optStr, h]
  | some la =>
    cases b with
    | none => simp [mergeConfig, optStr]
    | some hb => by_cases h : hb.pfx = "" <;> simp [mergeConfig, optStr, h]

/-- Folding a merge over a fragment list acts per field as "keep the last
non-empty value". -/
theorem optStr_foldl_merge (g : Config → String)
    (hstep : ∀ a b, optStr g (mergeConfig a b) =
      if optStr g b = "" then optStr g a else optStr g b)
    (fs : List (Option Config)) (acc : Option Config) :
    optStr g (fs.foldl mergeConfig acc) =
      (fs.map (optStr g)).foldl (fun s v => if v = "" then s else v) (optStr g acc) := by
  induction fs generalizing acc with
  | nil => rfl
  | cons x xs ih =>
    simp only [List.foldl_cons, List.map_cons]
    rw [ih, hstep]

/-- Keeping the last non-empty value of a list equals looking up the first
non-empty value of the reversed list. -/
theorem foldl_keepLast (l : List String) (d : String) :
    l.foldl (fun s v => if v = "" then s else v) d =
      (l.reverse.find? (fun v => v != "")).getD d := by
  induction l generalizing d with
  | nil => rfl
  | cons v l ih =>
    simp only [List.foldl_cons, List.reverse_cons]
    rw [ih]
    rcases hf : l.reverse.find? (fun v => v != "") with _ | x
    · rw [List.find?_append, hf]
      by_cases hv : v = "" <;> simp [hv]
    · rw [List.find?_append, hf]
      simp

/-- The built missing-field list equals the claim-side filtered list. -/
theorem missing_eq_spec (c : Config) : missingConfig c = specMissing c := by
  by_cases h1 : c.accessKeyID = "" <;> by_cases h2 : c.accessKeySecret = "" <;>
    by_cases h3 : c.bucketName = "" <;> by_cases h4 : c.endpoint = "" <;>
      simp [missingConfig, specMissing, h1, h2, h3, h4]

/-- Validation succeeds exactly when no required field is empty, and
otherwise reports every empty required field. -/
theorem validate_eq_spec (c : Config) :
    validateConfig c = (if specMissing c = [] then Except.ok c
      else Except.error ("missing config: " ++
        String.intercalate ", " (specMissing c))) := by
  have h := missing_eq_spec c
  simp only [validateConfig, h]
  cases hs : specMissing c with
  | nil => simp
  | cons a l => simp

/-- C3: for every ordered fragment list (lowest priority first, `none` for an
absent source), each field of the merged configuration is the value of the
highest-priority fragment that sets it non-empty (empty when none does), and
validation after the merge fails exactly when a required field is empty, with
an error naming every missing required field. -/
theorem merge_and_validate_config (fs : List (Option Config)) :
    optStr Config.accessKeyID (mergeAll fs) =
      highestNonEmpty (fs.map (optStr Config.accessKeyID)) ∧
    optStr Config.accessKeySecret (mergeAll fs) =
      highestNonEmpty (fs.map (optStr Config.accessKeySecret)) ∧
    optStr Config.bucketName (mergeAll fs) =
      highestNonEmpty (fs.map (optStr Config.bucketName)) ∧
    optStr Config.endpoint (mergeAll fs) =
      highestNonEmpty (fs.map (optStr Config.endpoint)) ∧
    optStr Config.domain (mergeAll fs) =
      highestNonEmpty (fs.map (optStr Config.domain)) ∧
    optStr Config.pfx (mergeAll fs) =
      highestNonEmpty (fs.map (optStr Config.pfx)) ∧
    missingConfig (orEmptyConfig (mergeAll fs)) =
      specMissing (orEmptyConfig (mergeAll fs)) ∧
    validateConfig (orEmptyConfig (mergeAll fs)) =
      (if specMissing (orEmptyConfig (mergeAll fs)) = [] then
        Except.ok (orEmptyConfig (mergeAll fs))
      else Except.error ("missing config: " ++
        String.intercalate ", " (specMissing (orEmptyConfig (mergeAll fs))))) := by
  refine ⟨?_, ?_, ?_, ?_, ?_, ?_, missing_eq_spec _, validate_eq_spec _⟩
  · have h := optStr_foldl_merge _ merge_step_aki fs none
    rw [foldl_keepLast] at h
    exact h
  · have h := optStr_foldl_merge _ merge_step_aks fs none
    rw [foldl_keepLast] at h
    exact h
  · have h := optStr_foldl_merge _ merge_step_bucket fs none
    rw [foldl_keepLast] at h
    exact h
  · have h := optStr_foldl_merge _ merge_step_endpoint fs none
    rw [foldl_keepLast] at h
    exact h
  · have h := optStr_foldl_merge _ merge_step_domain fs none
    rw [foldl_keepLast] at h
    exact h
  · have h := optStr_foldl_merge _ merge_step_pfx fs none
    rw [foldl_keepLast] at h
    exact h

/-- The URL-derived filename of `getFilenameFromURL` written as the single
flat fallback condition of claim C6. -/
theorem getFilename_fallback (parsed : Option String) :
    getFilenameFromURL parsed = (match parsed with
      | none => "downloaded_file"
      | some path =>
        let seg := stripAfterQM (filepathBase path)
        if path = "" || path = "/" || seg = "" || seg = "." then "downloaded_file"
        else seg) := by
  cases parsed with
  | none => rfl
  | some path =>
    by_cases h1 : path = "" <;> by_cases h2 : path = "/" <;>
      by_cases h3 : stripAfterQM (filepathBase path) = "" <;>
        by_cases h4 : stripAfterQM (filepathBase path) = "." <;>
          simp [getFilenameFromURL, h1, h2, h3, h4]

/-- C6: the display name of a successful download is the non-empty
quote-trimmed Content-Disposition filename hint when the response carries
one; otherwise the last path segment of the URL; and the fixed fallback
"downloaded_file" when the URL fails to parse, its path is empty or "/", or
the last segment is empty or ".". -/
theorem download_display_name_rule (parsed : Option String) (cd : String) :
    downloadDisplayName parsed cd = specDisplayName parsed cd := by
  unfold downloadDisplayName specDisplayName
  by_cases hc : cd = ""
  · simp [hc, getFilename_fallback parsed]
  · rcases hd : dropAfterFirst "filename=".toList cd.toList with _ | rest
    · simp [hc, hd, getFilename_fallback parsed]
    · by_cases hfn : goTrimCutset quoteCut (String.mk rest) = ""
      · simp [hc, hd, hfn, getFilename_fallback parsed]
      · simp [hc, hd, hfn]

/-- The classification loop sends URL-form arguments (lowercase scheme test)
to the download list and everything else to the local list, each preserving
argument order, locals first in the final pairing. -/
theorem partitionLoop_eq (dl : String → String × String) (args : List String) :
    partitionLoop dl args =
      (args.filter (fun a => !(isURL a)),
        (args.filter (fun a => isURL a)).map
          (fun u => ⟨(dl u).1, (dl u).2, u⟩)) := by
  induction args with
  | nil => rfl
  | cons a rest ih =>
    cases hu : isURL a <;> simp [partitionLoop, List.filter_cons, hu, ih]

/-- The separate-mode loop, when every upload succeeds, issues one upload per
manifest entry in manifest order and returns one record per entry in the same
order. -/
theorem uploadLoop_all_ok (tmap : List (String × String)) (cfg : Config)
    (ossPfx : String) (nt : Bool) (t : String) (up : String → String → Bool)
    (files : List String)
    (h : ∀ f ∈ files, up (sepKey tmap ossPfx nt t f) f = true) :
    uploadLoop tmap cfg ossPfx nt t up files =
      (files, Except.ok (files.map (sepRecord tmap cfg ossPfx nt t))) := by
  induction files with
  | nil => rfl
  | cons f fsr ih =>
    have hf : up (sepKey tmap ossPfx nt t f) f = true := h f (by simp)
    have hrest : ∀ g ∈ fsr, up (sepKey tmap ossPfx nt t g) g = true :=
      fun g hg => h g (by simp [hg])
    simp [uploadLoop, hf, ih hrest]

/-- C8: the manifest is the expanded local arguments (in argument order)
followed by the downloaded temp paths (in argument order); separate-mode
uploads are issued in exactly that order and the result records preserve
it. -/
theorem manifest_order_preserved (fsys : FS) (recursive : Bool)
    (dl : String → String × String) (args : List String)
    (tmap : List (String × String)) (cfg : Config) (ossPfx t : String)
    (nt : Bool) (up : String → String → Bool) (fl : List String)
    (hex : (if args.filter (fun a => !(isURL a)) = [] then
        (Except.ok [] : Except String (List String))
      else expandFiles fsys recursive (args.filter (fun a => !(isURL a)))) =
        Except.ok fl)
    (hne : fl ++ (args.filter (fun a => isURL a)).map (fun u => (dl u).1) ≠ [])
    (hup : ∀ f ∈ fl ++ (args.filter (fun a => isURL a)).map (fun u => (dl u).1),
      up (sepKey tmap ossPfx nt t f) f = true) :
    mainFiles fsys recursive dl args =
      Except.ok (fl ++ (args.filter (fun a => isURL a)).map (fun u => (dl u).1)) ∧
    uploadLoop tmap cfg ossPfx nt t up
        (fl ++ (args.filter (fun a => isURL a)).map (fun u => (dl u).1)) =
      (fl ++ (args.filter (fun a => isURL a)).map (fun u => (dl u).1),
        Except.ok
          ((fl ++ (args.filter (fun a => isURL a)).map (fun u => (dl u).1)).map
            (sepRecord tmap cfg ossPfx nt t))) := by
  constructor
  · unfold mainFiles
    rw [partitionLoop_eq]
    simp only [List.map_map]
    rw [hex]
    dsimp only
    have hne2 : fl ++ List.map ((fun x => x.tmpPath) ∘ fun u =>
        (⟨(dl u).1, (dl u).2, u⟩ : DownloadedFile))
        (List.filter (fun a => isURL a) args) ≠ [] := hne
    rw [if_neg hne2]
    rfl
  · exact uploadLoop_all_ok tmap cfg ossPfx nt t up _ hup

/-- Filesystem for the C8 witness: every path exists and none is a
directory. -/
def fsysC8 : FS :=
  ⟨fun _ => true, fun _ => false, fun _ => Except.ok [], fun _ => Except.ok []⟩

/-- Download oracle for the C8 witness. -/
def dlC8 : String → String × String := fun _ => ("/tmp/d1.png", "img.png")

/-- Configuration for the C8 witness. -/
def cfgC8 : Config := ⟨"id", "secret", "bucket", "oss.example.com", "", ""⟩

/-- Witness for `manifest_order_preserved`: one local file and one URL; the
manifest is the local file then the downloaded temp path, and the two result
records appear in that order under the downloaded file's display name. -/
theorem manifest_order_preserved_witness :
    mainFiles fsysC8 false dlC8 ["a.txt", "https://h/img.png"] =
      Except.ok ["a.txt", "/tmp/d1.png"] ∧
    uploadLoop [("/tmp/d1.png", "img.png")] cfgC8 "" true "TS" (fun _ _ => true)
        ["a.txt", "/tmp/d1.png"] =
      (["a.txt", "/tmp/d1.png"],
        Except.ok
          [⟨"a.txt", "https://bucket.oss.example.com/a.txt"⟩,
            ⟨"img.png", "https://bucket.oss.example.com/img.png"⟩]) := by
  exact manifest_order_preserved fsysC8 false dlC8 ["a.txt", "https://h/img.png"]
    [("/tmp/d1.png", "img.png")] cfgC8 "" "TS" true (fun _ _ => true) ["a.txt"]
    rfl (by decide) (fun f _ => rfl)

/-- C10: an argument is classified as a URL exactly when it starts with the
lowercase literal "http://" or "https://"; an uppercase-scheme argument such
as "HTTP://host/file.png" goes to the local partition and, when no such
local file exists, collection fails with a file-not-found error naming it
instead of downloading. -/
theorem url_scheme_case_sensitive (s : String) (fsys : FS) (recursive : Bool)
    (dl : String → String × String)
    (h : fsys.statOk "HTTP://host/file.png" = false) :
    isURL s = (goHasPre s "http://" || goHasPre s "https://") ∧
    isURL "HTTP://host/file.png" = false ∧
    partitionLoop dl ["HTTP://host/file.png"] = (["HTTP://host/file.png"], []) ∧
    expandFiles fsys recursive ["HTTP://host/file.png"] =
      Except.error "file not found: HTTP://host/file.png" := by
  refine ⟨rfl, rfl, rfl, ?_⟩
  have hg : containsGlobMeta "HTTP://host/file.png" = false := by decide
  simp [expandFiles, expandLoop, hg, h]

/-- Filesystem for the C10 witness: nothing exists. -/
def fsC10 : FS :=
  ⟨fun _ => false, fun _ => false, fun _ => Except.ok [], fun _ => Except.ok []⟩

/-- Witness for `url_scheme_case_sensitive` on the empty filesystem. -/
theorem url_scheme_case_sensitive_witness :
    isURL "x" = (goHasPre "x" "http://" || goHasPre "x" "https://") ∧
    isURL "HTTP://host/file.png" = false ∧
    partitionLoop (fun _ => ("", "")) ["HTTP://host/file.png"] =
      (["HTTP://host/file.png"], []) ∧
    expandFiles fsC10 false ["HTTP://host/file.png"] =
      Except.error "file not found: HTTP://host/file.png" := by
  exact url_scheme_case_sensitive "x" fsC10 false (fun _ => ("", "")) rfl

end FileShare
